import Mathlib

/-!
# AWS Security Hub finding table: list, get, filter translation, control ARN

A shallow embedding of `aws/table_aws_securityhub_finding.go`:

* `buildListFindingsParam` (filter translation), with the Go heap made explicit,
  because the function stores one `*securityhub.StringFilter` pointer in every list;
* `listSecurityHubFindings` (page size, pagination callback, error handling);
* `getSecurityHubFinding` (lookup by identifier);
* `extractStandardControlArn` (string rewriting of the finding identifier).

Go strings are embedded as Lean `String`s, i.e. as valid UTF-8 text.  Every pattern the
program searches for is ASCII, so searching by code point and searching by byte agree.
-/

set_option autoImplicit false

namespace SecurityHubFinding

/-! ## Go `strings` functions used by the table -/

/-- Go `strings.Index(s, substr)`: position of the first occurrence of `substr` in `s`;
`none` stands for Go's `-1`. -/
def Index : List Char → List Char → Option Nat
  | [], substr => if substr.isEmpty then some 0 else none
  | c :: cs, substr =>
    if substr.isPrefixOf (c :: cs) then some 0 else (Index cs substr).map (· + 1)

/-- Go `strings.Contains(s, substr)`, which is `Index(s, substr) >= 0`. -/
def Contains (s substr : String) : Bool := (Index s.data substr.data).isSome

/-- The loop of Go `strings.genSplit` for a non-empty separator: cut at the first
occurrence of `sep`, continue behind it.  Every round consumes at least one character, so
`fuel = len(s) + 1` rounds always suffice. -/
def genSplit (sep : List Char) : Nat → List Char → List (List Char)
  | 0, s => [s]
  | fuel + 1, s =>
    match Index s sep with
    | none => [s]
    | some m => s.take m :: genSplit sep fuel (s.drop (m + sep.length))

/-- Go `strings.Split(s, sep)`; an empty separator explodes `s` into its characters. -/
def Split (s sep : String) : List String :=
  if sep.data.isEmpty then s.data.map (fun c => String.mk [c])
  else (genSplit sep.data (s.data.length + 1) s.data).map String.mk

/-- The replacement loop of Go `strings.Replace` for a non-empty `old`: at most `n` times,
copy up to the next occurrence of `old`, write `new`, continue behind the occurrence. -/
def replaceLoop (old new : List Char) : Nat → List Char → List Char
  | 0, s => s
  | n + 1, s =>
    match Index s old with
    | none => s
    | some j => s.take j ++ new ++ replaceLoop old new n (s.drop (j + old.length))

/-- The replacement loop of Go `strings.Replace` for an empty `old`: `new` is inserted at
the start and after each character, at most `n` times. -/
def replaceEmptyLoop (new : List Char) : Nat → List Char → List Char
  | 0, s => s
  | _ + 1, [] => new
  | n + 1, c :: cs => new ++ c :: replaceEmptyLoop new n cs

/-- Go `strings.Replace(s, old, new, n)`; a negative `n` replaces every occurrence. -/
def Replace (s old new : String) (n : Int) : String :=
  if old = new ∨ n = 0 then s
  else
    let k : Nat := if n < 0 then s.data.length + 1 else n.toNat
    if old.data.isEmpty then String.mk (replaceEmptyLoop new.data k s.data)
    else String.mk (replaceLoop old.data new.data k s.data)

/-! ## Data model -/

/-- A Go `error`, observed through its message `err.Error()`. -/
structure GoError where
  msg : String
deriving DecidableEq, Repr

/-- The `proto.QualValue` of a predicate (the alternatives this table can meet). -/
inductive QualValue where
  | StringValue (v : String)
  | Int64Value (v : Int)
  | BoolValue (v : Bool)
deriving DecidableEq, Repr

/-- The getter `(*proto.QualValue).GetStringValue()`: the string of a string value, and
`""` for a nil pointer or a value of another kind. -/
def GetStringValue : Option QualValue → String
  | some (QualValue.StringValue v) => v
  | _ => ""

/-- A predicate `quals.Qual` of the Query Filter Set. -/
structure Qual where
  Column : String
  Operator : String
  Value : Option QualValue
deriving DecidableEq, Repr

/-- The predicates of one column, `plugin.KeyColumnQuals`. -/
structure KeyColumnQuals where
  Name : String
  Quals : List Qual
deriving DecidableEq, Repr

/-- The Query Filter Set `plugin.KeyColumnQualMap`, a Go `map[string]*KeyColumnQuals`,
observed through lookup; `none` is a missing key or a nil pointer. -/
abbrev KeyColumnQualMap := String → Option KeyColumnQuals

/-- The record `securityhub.StringFilter`; both fields are `*string`. -/
structure StringFilter where
  Comparison : Option String
  Value : Option String
deriving DecidableEq, Repr

/-- The fields of `securityhub.AwsSecurityFindingFilters` that the table writes.  An entry
of type `F` is a pointer `Ptr` while the request is built in memory, and a `StringFilter`
once the request is read through its pointers. -/
structure AwsSecurityFindingFilters (F : Type) where
  CompanyName : List F
  ComplianceStatus : List F
  GeneratorId : List F
  Id : List F
  ProductArn : List F
  ProductName : List F
  RecordState : List F
  Title : List F
  VerificationState : List F
  WorkflowState : List F
deriving DecidableEq, Repr

/-- The zero value `AwsSecurityFindingFilters{}`: every list is nil. -/
def AwsSecurityFindingFilters.zero (F : Type) : AwsSecurityFindingFilters F :=
  ⟨[], [], [], [], [], [], [], [], [], []⟩

/-- All entries of a filter object, field after field. -/
def AwsSecurityFindingFilters.entries {F : Type} (f : AwsSecurityFindingFilters F) : List F :=
  f.CompanyName ++ f.ComplianceStatus ++ f.GeneratorId ++ f.Id ++ f.ProductArn ++
    f.ProductName ++ f.RecordState ++ f.Title ++ f.VerificationState ++ f.WorkflowState

/-! ## The heap of `StringFilter` objects -/

/-- Address of a `StringFilter` object. -/
abbrev Ptr := Nat

/-- The allocated `StringFilter` objects; the address of an object is its position. -/
abbrev Heap := List StringFilter

/-- Allocation `&securityhub.StringFilter{...}`: the new heap and the new address. -/
def heapNew (h : Heap) (v : StringFilter) : Heap × Ptr := (h ++ [v], h.length)

/-- Assignment through a pointer: the object at `p` is replaced by `g` of it. -/
def heapUpdate (h : Heap) (p : Ptr) (g : StringFilter → StringFilter) : Heap :=
  match h[p]? with
  | some v => h.set p (g v)
  | none => h

/-- Reading a list of pointers: what each entry holds now.  A dangling address (none is
ever produced) would read as the zero `StringFilter`. -/
def derefList (h : Heap) (ps : List Ptr) : List StringFilter :=
  ps.map (fun p => h.getD p ⟨none, none⟩)

/-- The request as the remote service receives it: every pointer replaced by the object
it points to at the time of the call. -/
def derefFilters (h : Heap) (f : AwsSecurityFindingFilters Ptr) :
    AwsSecurityFindingFilters StringFilter :=
  { CompanyName := derefList h f.CompanyName
    ComplianceStatus := derefList h f.ComplianceStatus
    GeneratorId := derefList h f.GeneratorId
    Id := derefList h f.Id
    ProductArn := derefList h f.ProductArn
    ProductName := derefList h f.ProductName
    RecordState := derefList h f.RecordState
    Title := derefList h f.Title
    VerificationState := derefList h f.VerificationState
    WorkflowState := derefList h f.WorkflowState }

/-! ## Filter translation: `buildListFindingsParam` -/

/-- The local `strColumns` of `buildListFindingsParam`. -/
def strColumns : List String :=
  ["company_name", "compliance_status", "generator_id", "product_arn", "product_name",
   "record_state", "title", "verification_state", "workflow_state"]

/-- The memory `buildListFindingsParam` works on: the heap and the object behind
`securityFindingsFilter`. -/
structure BuildState where
  heap : Heap
  filter : AwsSecurityFindingFilters Ptr
deriving DecidableEq, Repr

/-- The body of the inner loop of `buildListFindingsParam`, for the predicate `q` of the
column `s`; `strFilter` is the pointer allocated before the loops. -/
def qualStep (strFilter : Ptr) (s : String) (st : BuildState) (q : Qual) : BuildState :=
  let value := GetStringValue q.Value
  if value = "" then st
  else
    let h1 : Heap :=
      if q.Operator = "<>" then
        heapUpdate st.heap strFilter (fun x => { x with Comparison := some "NOT_EQUALS" })
      else if q.Operator = "=" then
        heapUpdate st.heap strFilter (fun x => { x with Comparison := some "EQUALS" })
      else st.heap
    let h2 : Heap := heapUpdate h1 strFilter (fun x => { x with Value := some value })
    let f := st.filter
    if s = "company_name" then
      ⟨h2, { f with CompanyName := f.CompanyName ++ [strFilter] }⟩
    else if s = "generator_id" then
      ⟨h2, { f with GeneratorId := f.GeneratorId ++ [strFilter] }⟩
    else if s = "compliance_status" then
      ⟨h2, { f with ComplianceStatus := f.ComplianceStatus ++ [strFilter] }⟩
    else if s = "product_arn" then
      ⟨h2, { f with ProductArn := f.ProductArn ++ [strFilter] }⟩
    else if s = "product_name" then
      ⟨h2, { f with ProductName := f.ProductName ++ [strFilter] }⟩
    else if s = "record_state" then
      ⟨h2, { f with RecordState := f.RecordState ++ [strFilter] }⟩
    else if s = "title" then
      ⟨h2, { f with Title := f.Title ++ [strFilter] }⟩
    else if s = "verification_state" then
      ⟨h2, { f with VerificationState := f.VerificationState ++ [strFilter] }⟩
    else if s = "workflow_state" then
      ⟨h2, { f with WorkflowState := f.WorkflowState ++ [strFilter] }⟩
    else ⟨h1, f⟩

/-- The body of the outer loop of `buildListFindingsParam`, for the column `s`. -/
def columnStep (quals : KeyColumnQualMap) (strFilter : Ptr) (st : BuildState) (s : String) :
    BuildState :=
  match quals s with
  | none => st
  | some k => k.Quals.foldl (qualStep strFilter s) st

/-- The function `buildListFindingsParam(quals)`, run on the heap `h`: the heap afterwards
and the returned filter object. -/
def buildListFindingsParam (h : Heap) (quals : KeyColumnQualMap) : BuildState :=
  let a := heapNew h ⟨none, none⟩
  strColumns.foldl (columnStep quals a.2) ⟨a.1, AwsSecurityFindingFilters.zero Ptr⟩

/-- The Remote Filter Request that `buildListFindingsParam(quals)` hands over. -/
def BuildState.request (r : BuildState) : AwsSecurityFindingFilters StringFilter :=
  derefFilters r.heap r.filter

/-! ## Standards control ARN: `extractStandardControlArn` -/

/-- The transform `extractStandardControlArn`, as a function of the dereferenced
identifier `*findingArn`; the result is the Go pair `(interface{}, error)`. -/
def extractStandardControlArn (findingArn : String) : Option String × Option GoError :=
  if Contains findingArn "arn:aws:securityhub" then
    let standardControlArn :=
      Replace ((Split findingArn "/finding").headD "") "subscription" "control" 1
    (some standardControlArn, none)
  else (none, none)

/-! ## Query data and the remote service -/

/-- The part of `plugin.QueryContext` the table reads: the optional Row Limit (`*int64`). -/
structure QueryContext where
  Limit : Option Int

/-- Modelled from the spec: the row quota kept by the plugin SDK in `d.QueryStatus`,
the number of rows the caller wants and the number streamed so far. -/
structure QueryStatus where
  rowsRequired : Nat
  rowsStreamed : Nat
deriving DecidableEq, Repr

/-- The part of `plugin.QueryData` the table reads. -/
structure QueryData where
  KeyColumnQuals : String → Option QualValue
  Quals : KeyColumnQualMap
  QueryContext : QueryContext
  QueryStatus : QueryStatus

/-- The request `securityhub.GetFindingsInput`, as sent: filters read through their
pointers, and the page size. -/
structure GetFindingsInput where
  Filters : Option (AwsSecurityFindingFilters StringFilter)
  MaxResults : Option Int
deriving DecidableEq, Repr

/-- Modelled from the spec: the remote service behind the client `svc`.  `GetFindings`
answers one request with the findings of the response or with an error; `pages` is the
sequence of answers the service gives to the successive page fetches of one request, each
a page of findings or an error, the last page being the one without a successor. -/
structure SecurityHub (α : Type) where
  GetFindings : GetFindingsInput → Except GoError (List α)
  pages : GetFindingsInput → List (Except GoError (List α))

/-- The output stream of one query: the quota counters and the rows emitted, in order. -/
structure RowStream (α : Type) where
  status : QueryStatus
  rows : List α

/-- Modelled from the spec: `d.StreamListItem(ctx, item)` of the plugin SDK emits the
item to the output stream and counts it against the row quota. -/
def StreamListItem {α : Type} (st : RowStream α) (item : α) : RowStream α :=
  ⟨⟨st.status.rowsRequired, st.status.rowsStreamed + 1⟩, st.rows ++ [item]⟩

/-- Modelled from the spec: `d.QueryStatus.RowsRemaining(ctx)` of the plugin SDK, the
rows still wanted by the caller (cancellation of the context is not part of the model). -/
def RowsRemaining (s : QueryStatus) : Int := (s.rowsRequired : Int) - (s.rowsStreamed : Int)

/-- What one call of `svc.GetFindingsPages` leaves behind: the state threaded through the
callback, the number of pages requested from the service, and the returned error. -/
structure PagerResult (σ : Type) where
  state : σ
  fetched : Nat
  err : Option GoError

/-- Modelled from the spec: `svc.GetFindingsPages(input, fn)` of the AWS SDK.  It fetches
the pages one at a time, hands each to `fn` together with `isLast`, and stops at the first
failed fetch (returning its error), after the last page, or as soon as `fn` returns
`false`.  `n` counts the fetches made so far. -/
def GetFindingsPages {σ α : Type} (fn : σ → List α → Bool → σ × Bool) :
    σ → Nat → List (Except GoError (List α)) → PagerResult σ
  | st, n, [] => ⟨st, n, none⟩
  | st, n, Except.error e :: _ => ⟨st, n + 1, some e⟩
  | st, n, Except.ok page :: rest =>
    let r := fn st page rest.isEmpty
    if r.2 then GetFindingsPages fn r.1 (n + 1) rest else ⟨r.1, n + 1, none⟩

/-! ## List: `listSecurityHubFindings` -/

/-- The `for _, finding := range page.Findings` loop of the page callback.  The second
component is `some b` when the loop left the callback with `return b`. -/
def findingsLoop {α : Type} : RowStream α → List α → RowStream α × Option Bool
  | st, [] => (st, none)
  | st, finding :: rest =>
    let st1 := StreamListItem st finding
    if RowsRemaining st1.status = 0 then (st1, some false) else findingsLoop st1 rest

/-- The callback `func(page, isLast) bool` passed to `GetFindingsPages`. -/
def pageCallback {α : Type} (st : RowStream α) (page : List α) (isLast : Bool) :
    RowStream α × Bool :=
  match findingsLoop st page with
  | (st1, some b) => (st1, b)
  | (st1, none) => (st1, !isLast)

/-- The request `input` that `listSecurityHubFindings` builds before the list call. -/
def listInput (d : QueryData) : GetFindingsInput :=
  let maxResults : Int := 100
  let findingsFilter := buildListFindingsParam [] d.Quals
  let input : GetFindingsInput := ⟨some findingsFilter.request, some maxResults⟩
  match d.QueryContext.Limit with
  | some limit =>
    if limit < maxResults then
      if limit < 1 then { input with MaxResults := some 1 }
      else { input with MaxResults := some limit }
    else input
  | none => input

/-- What a run of `listSecurityHubFindings` does: how often the service client was
created, the request passed to `GetFindingsPages` (if it was called), the number of pages
requested, the rows streamed, and the returned pair `(interface{}, error)`. -/
structure ListOutcome (α : Type) where
  sessions : Nat
  input : Option GetFindingsInput
  pagesRequested : Nat
  rows : List α
  ret : Option α × Option GoError

/-- The hydrate function `listSecurityHubFindings`; `SecurityHubService` is the result
of creating the service client. -/
def listSecurityHubFindings {α : Type} (SecurityHubService : Except GoError (SecurityHub α))
    (d : QueryData) : ListOutcome α :=
  match SecurityHubService with
  | Except.error err => ⟨1, none, 0, [], (none, some err)⟩
  | Except.ok svc =>
    let input := listInput d
    let run := GetFindingsPages pageCallback ⟨d.QueryStatus, []⟩ 0 (svc.pages input)
    match run.err with
    | some err =>
      if Contains err.msg "not subscribed" then
        ⟨1, some input, run.fetched, run.state.rows, (none, none)⟩
      else ⟨1, some input, run.fetched, run.state.rows, (none, some err)⟩
    | none => ⟨1, some input, run.fetched, run.state.rows, (none, none)⟩

/-! ## Get: `getSecurityHubFinding` -/

/-- What a run of `getSecurityHubFinding` does: how often the service client was created,
the requests passed to `GetFindings`, in order, and the returned pair. -/
structure GetOutcome (α : Type) where
  sessions : Nat
  calls : List GetFindingsInput
  ret : Option α × Option GoError

/-- The hydrate function `getSecurityHubFinding`. -/
def getSecurityHubFinding {α : Type} (SecurityHubService : Except GoError (SecurityHub α))
    (d : QueryData) : GetOutcome α :=
  let id := GetStringValue (d.KeyColumnQuals "id")
  if id = "" then ⟨0, [], (none, none)⟩
  else
    match SecurityHubService with
    | Except.error err => ⟨1, [], (none, some err)⟩
    | Except.ok svc =>
      let params : GetFindingsInput :=
        ⟨some { AwsSecurityFindingFilters.zero StringFilter with
                  Id := [⟨some "EQUALS", some id⟩] }, none⟩
      match svc.GetFindings params with
      | Except.error err =>
        if Contains err.msg "not subscribed" then ⟨1, [params], (none, none)⟩
        else ⟨1, [params], (none, some err)⟩
      | Except.ok op =>
        if op.length > 0 then ⟨1, [params], (op[0]?, none)⟩
        else ⟨1, [params], (none, none)⟩

/-! ## Vocabulary of the statements -/

/-- The decomposition `s = a ++ sub ++ b` marks the first occurrence of `sub` in `s`:
no occurrence starts further left. -/
def FirstOccurrence (sub s a b : List Char) : Prop :=
  s = a ++ sub ++ b ∧ ∀ a' b', s = a' ++ sub ++ b' → a.length ≤ a'.length

/-- The text `part` is `s` up to the first occurrence of `sep`, or all of `s` when `sep`
does not occur. -/
def BeforeFirst (sep s part : List Char) : Prop :=
  (¬ sep <:+: s ∧ part = s) ∨ ∃ b, FirstOccurrence sep s part b

/-- The text `r` is `s` with the first occurrence of `old` replaced by `new`, or `s`
itself when `old` does not occur. -/
def ReplacedFirst (old new s r : List Char) : Prop :=
  (¬ old <:+: s ∧ r = s) ∨ ∃ a b, FirstOccurrence old s a b ∧ r = a ++ new ++ b

/-- The predicates of a column that the inner loop does not skip: those whose
`GetStringValue` is not `""`. -/
def effective (qs : List Qual) : List Qual :=
  qs.filter (fun q => decide (GetStringValue q.Value ≠ ""))

/-- The predicates that the loops over the columns `cols` translate, each with its column,
in the order in which the loops meet them. -/
def processedIn (cols : List String) (quals : KeyColumnQualMap) : List (String × Qual) :=
  cols.flatMap (fun s =>
    match quals s with
    | none => []
    | some k => (effective k.Quals).map (fun q => (s, q)))

/-- The predicates that `buildListFindingsParam` translates, in processing order. -/
def processed (quals : KeyColumnQualMap) : List (String × Qual) :=
  processedIn strColumns quals

/-- All predicates of the string columns: columns in the order of `strColumns`, the
predicates of a column in their given order. -/
def predicatesInOrder (quals : KeyColumnQualMap) : List Qual :=
  strColumns.flatMap (fun s =>
    match quals s with
    | none => []
    | some k => k.Quals)

/-- The two assignments one round of the inner loop makes to the shared object. -/
def cellStep (c : StringFilter) (q : Qual) : StringFilter :=
  ⟨if q.Operator = "<>" then some "NOT_EQUALS"
    else if q.Operator = "=" then some "EQUALS" else c.Comparison,
   some (GetStringValue q.Value)⟩

/-- The `append` of one round of the inner loop: the entry `x` goes to the field of the
column `s`. -/
def appendEntry {F : Type} (x : F) (f : AwsSecurityFindingFilters F) (s : String) :
    AwsSecurityFindingFilters F :=
  if s = "company_name" then { f with CompanyName := f.CompanyName ++ [x] }
  else if s = "generator_id" then { f with GeneratorId := f.GeneratorId ++ [x] }
  else if s = "compliance_status" then { f with ComplianceStatus := f.ComplianceStatus ++ [x] }
  else if s = "product_arn" then { f with ProductArn := f.ProductArn ++ [x] }
  else if s = "product_name" then { f with ProductName := f.ProductName ++ [x] }
  else if s = "record_state" then { f with RecordState := f.RecordState ++ [x] }
  else if s = "title" then { f with Title := f.Title ++ [x] }
  else if s = "verification_state" then
    { f with VerificationState := f.VerificationState ++ [x] }
  else if s = "workflow_state" then { f with WorkflowState := f.WorkflowState ++ [x] }
  else f

/-- The shared object after all rounds. -/
def finalCell (quals : KeyColumnQualMap) : StringFilter :=
  (processed quals).foldl (fun c sq => cellStep c sq.2) ⟨none, none⟩

/-- The Query Filter Set without its predicates of empty string value. -/
def withoutEmpty (quals : KeyColumnQualMap) : KeyColumnQualMap :=
  fun s => (quals s).map (fun k => { k with Quals := effective k.Quals })

/-- The Query Filter Set with the entry of the column `s` replaced by `k`. -/
def withColumn (quals : KeyColumnQualMap) (s : String) (k : KeyColumnQuals) :
    KeyColumnQualMap :=
  fun t => if t = s then some k else quals t

/-- A key column declaration `plugin.KeyColumn`: the column and the operators that may be
pushed down on it. -/
structure KeyColumn where
  Name : String
  Operators : List String
deriving DecidableEq, Repr

/-- The `KeyColumns` of the List configuration in `tableAwsSecurityHubFinding`. -/
def listKeyColumns : List KeyColumn :=
  [⟨"company_name", ["=", "<>"]⟩,
   ⟨"compliance_status", ["=", "<>"]⟩,
   ⟨"confidence", ["=", ">=", "<="]⟩,
   ⟨"criticality", ["=", ">=", "<="]⟩,
   ⟨"generator_id", ["=", "<>"]⟩,
   ⟨"product_arn", ["=", "<>"]⟩,
   ⟨"product_name", ["=", "<>"]⟩,
   ⟨"record_state", ["=", "<>"]⟩,
   ⟨"title", ["=", "<>"]⟩,
   ⟨"verification_state", ["=", "<>"]⟩,
   ⟨"workflow_state", ["=", "<>"]⟩]

/-- Modelled from the spec: the key column declaration governs which predicates the caller
may hand to the translation step.  A Query Filter Set respects it when each of its
predicates stands under a declared key column and carries an operator declared for it. -/
def RespectsKeyColumns (quals : KeyColumnQualMap) : Prop :=
  ∀ s k, quals s = some k → ∀ q ∈ k.Quals,
    ∃ kc ∈ listKeyColumns, kc.Name = s ∧ q.Operator ∈ kc.Operators

/-! ## Sample queries -/

/-- The Query Filter Set of `where company_name = 'a' and title <> 'b'`. -/
def qualsCompanyTitle : KeyColumnQualMap := fun s =>
  if s = "company_name" then
    some ⟨"company_name", [⟨"company_name", "=", some (QualValue.StringValue "a")⟩]⟩
  else if s = "title" then
    some ⟨"title", [⟨"title", "<>", some (QualValue.StringValue "b")⟩]⟩
  else none

/-- The Query Filter Set of `where confidence >= 50 and title = 't'`. -/
def qualsConfidenceTitle : KeyColumnQualMap := fun s =>
  if s = "confidence" then
    some ⟨"confidence", [⟨"confidence", ">=", some (QualValue.Int64Value 50)⟩]⟩
  else if s = "title" then
    some ⟨"title", [⟨"title", "=", some (QualValue.StringValue "t")⟩]⟩
  else none

/-- The three pages of the pagination example: 100, 100 and 50 records, numbered 0..249. -/
def samplePages : List (List Nat) :=
  [List.range 100, (List.range 100).map (· + 100), (List.range 50).map (· + 200)]

/-- A remote service that answers every `GetFindings` call with `answer` and the page
fetches of every list call with `pageAnswers`. -/
def sampleService (answer : Except GoError (List Nat))
    (pageAnswers : List (Except GoError (List Nat))) : SecurityHub Nat :=
  ⟨fun _ => answer, fun _ => pageAnswers⟩

/-- A query with the key column value `id`, no filter predicates, the Row Limit `limit`
and a row quota of `quota` rows, none streamed yet. -/
def sampleQuery (id : Option QualValue) (limit : Option Int) (quota : Nat) : QueryData :=
  ⟨fun s => if s = "id" then id else none, fun _ => none, ⟨limit⟩, ⟨quota, 0⟩⟩

/-- The error of a region in which Security Hub is not enabled. -/
def notSubscribedError : GoError :=
  ⟨"InvalidAccessException: Account 123456789012 is not subscribed to AWS Security Hub"⟩

/-- An error of another kind. -/
def accessDeniedError : GoError :=
  ⟨"AccessDeniedException: User is not authorized to perform securityhub:GetFindings"⟩

/-! ## Facts about the `strings` functions -/

theorem Index_none {sub : List Char} : ∀ {s : List Char}, Index s sub = none → ¬ sub <:+: s
  | [], h => by
    simp only [Index] at h
    split at h
    · cases h
    · rename_i hne
      intro hin
      rw [List.infix_nil] at hin
      simp [hin] at hne
  | c :: cs, h => by
    simp only [Index] at h
    split at h
    · cases h
    · rename_i hp
      rw [Option.map_eq_none'] at h
      rw [List.infix_cons_iff]
      rintro (hpre | hin)
      · exact hp ( List.isPrefixOf_iff_prefix.mpr hpre)
      · exact Index_none h hin

theorem Index_some {sub : List Char} (hsub : sub ≠ []) :
    ∀ {s : List Char} {m : Nat}, Index s sub = some m →
      FirstOccurrence sub s (s.take m) (s.drop (m + sub.length))
  | [], m, h => by
    simp only [Index] at h
    split at h
    · rename_i he
      simp at he
      exact absurd he hsub
    · cases h
  | c :: cs, m, h => by
    simp only [Index] at h
    split at h
    · rename_i hp
      cases h
      have hpre := List.isPrefixOf_iff_prefix.mp hp
      refine ⟨?_, fun _ _ _ => by simp⟩
      simpa using ( List.prefix_iff_eq_append.mp hpre).symm
    · rename_i hp
      rw [Option.map_eq_some'] at h
      obtain ⟨m', hm', rfl⟩ := h
      obtain ⟨heq, hmin⟩ := Index_some hsub hm'
      refine ⟨?_, ?_⟩
      · have : m' + 1 + sub.length = (m' + sub.length) + 1 := by omega
        rw [this]
        simp only [List.take_succ_cons, List.drop_succ_cons, List.cons_append]
        exact congrArg (c :: ·) heq
      · intro a' b' h'
        cases a' with
        | nil =>
          exfalso
          apply hp
          rw [ List.isPrefixOf_iff_prefix]
          exact ⟨b', by simpa using h'.symm⟩
        | cons x a'' =>
          simp only [List.cons_append, List.cons.injEq] at h'
          have := hmin a'' b' h'.2
          have hlen : (List.take (m' + 1) (c :: cs)).length ≤ (List.take m' cs).length + 1 := by
            simp
          simp only [List.length_cons]
          omega

theorem Contains_iff (s substr : String) :
    Contains s substr = true ↔ substr.data <:+: s.data := by
  unfold Contains
  constructor
  · intro h
    by_cases hsub : substr.data = []
    · rw [hsub]; exact List.nil_infix
    · obtain ⟨m, hm⟩ := Option.isSome_iff_exists.mp h
      obtain ⟨heq, _⟩ := Index_some hsub hm
      exact ⟨_, _, heq.symm⟩
  · intro h
    cases hI : Index s.data substr.data with
    | none => exact absurd h (Index_none hI)
    | some m => rfl

theorem Split_head (s sep : String) (hsep : sep.data ≠ []) :
    ∃ part, BeforeFirst sep.data s.data part ∧ (Split s sep).headD "" = String.mk part := by
  have hne : sep.data.isEmpty = false := by
    cases hd : sep.data with
    | nil => exact absurd hd hsep
    | cons _ _ => rfl
  unfold Split
  rw [hne]
  simp only [Bool.false_eq_true, if_false, genSplit]
  cases hI : Index s.data sep.data with
  | none => exact ⟨s.data, Or.inl ⟨Index_none hI, rfl⟩, rfl⟩
  | some m => exact ⟨s.data.take m, Or.inr ⟨_, Index_some hsep hI⟩, rfl⟩

theorem Replace_one (s old new : String) (hne : old ≠ new) (hold : old.data ≠ []) :
    ∃ r, ReplacedFirst old.data new.data s.data r ∧ Replace s old new 1 = String.mk r := by
  have hemp : old.data.isEmpty = false := by
    cases hd : old.data with
    | nil => exact absurd hd hold
    | cons _ _ => rfl
  unfold Replace
  rw [if_neg (by simp [hne]), hemp]
  simp only [Bool.false_eq_true, if_false]
  have hk : (if (1 : Int) < 0 then s.data.length + 1 else (1 : Int).toNat) = 1 := by
    rw [if_neg (by decide)]; rfl
  rw [hk]
  simp only [replaceLoop]
  cases hI : Index s.data old.data with
  | none => exact ⟨s.data, Or.inl ⟨Index_none hI, rfl⟩, rfl⟩
  | some j => exact ⟨_, Or.inr ⟨_, _, Index_some hold hI, rfl⟩, rfl⟩

/-! ## Standards control ARN -/

/-- C5: for every finding identifier `id`: if `id` contains "arn:aws:securityhub",
`extractStandardControlArn` returns (with no error) the part of `id` before the first
occurrence of "/finding" (all of `id` if there is none) with the first occurrence of
"subscription" in that part replaced by "control"; if `id` does not contain
"arn:aws:securityhub" it returns no value and no error.  The identifier of the CIS
subscription finding of the specification yields the control ARN given there. -/
theorem extractStandardControlArn_spec (id : String) :
    ("arn:aws:securityhub".data <:+: id.data →
      ∃ part r, BeforeFirst "/finding".data id.data part ∧
        ReplacedFirst "subscription".data "control".data part r ∧
        extractStandardControlArn id = (some (String.mk r), none)) ∧
    (¬ "arn:aws:securityhub".data <:+: id.data →
      extractStandardControlArn id = (none, none)) ∧
    extractStandardControlArn
        "arn:aws:securityhub:us-east-1:123:subscription/cis-aws/v1.2.0/1.1/finding/abc" =
      (some "arn:aws:securityhub:us-east-1:123:control/cis-aws/v1.2.0/1.1", none) := by
  refine ⟨fun h => ?_, fun h => ?_, by decide⟩
  · obtain ⟨part, hpart, hhead⟩ := Split_head id "/finding" (by decide)
    obtain ⟨r, hr, hrep⟩ :=
      Replace_one (String.mk part) "subscription" "control" (by decide) (by decide)
    refine ⟨part, r, hpart, hr, ?_⟩
    unfold extractStandardControlArn
    rw [if_pos ((Contains_iff _ _).mpr h), hhead, hrep]
  · unfold extractStandardControlArn
    rw [if_neg (fun hc => h ((Contains_iff _ _).mp hc))]

/-- Witness of C5 at an identifier with the Security Hub marker and at one without it. -/
theorem extractStandardControlArn_spec_witness :
    ("arn:aws:securityhub".data <:+: "arn:aws:securityhub:eu-west-1:7:subscription/x/finding/y".data ∧
      ∃ part r, BeforeFirst "/finding".data
          "arn:aws:securityhub:eu-west-1:7:subscription/x/finding/y".data part ∧
        ReplacedFirst "subscription".data "control".data part r ∧
        extractStandardControlArn "arn:aws:securityhub:eu-west-1:7:subscription/x/finding/y" =
          (some (String.mk r), none)) ∧
    (¬ "arn:aws:securityhub".data <:+: "arn:aws:guardduty:eu-west-1:7:detector/d/finding/f".data ∧
      extractStandardControlArn "arn:aws:guardduty:eu-west-1:7:detector/d/finding/f" =
        (none, none)) :=
  ⟨⟨(Contains_iff _ _).mp (by decide),
      (extractStandardControlArn_spec _).1 ((Contains_iff _ _).mp (by decide))⟩,
    ⟨fun h => absurd ((Contains_iff _ _).mpr h) (by decide),
      (extractStandardControlArn_spec _).2.1
        (fun h => absurd ((Contains_iff _ _).mpr h) (by decide))⟩⟩

/-! ## Facts about the heap and the translation loops -/

theorem heapUpdate_last (h : Heap) (c : StringFilter) (g : StringFilter → StringFilter) :
    heapUpdate (h ++ [c]) h.length g = h ++ [g c] := by
  unfold heapUpdate
  simp

theorem qualStep_last (h : Heap) (c : StringFilter) (f : AwsSecurityFindingFilters Ptr)
    (s : String) (hs : s ∈ strColumns) (q : Qual) :
    qualStep h.length s ⟨h ++ [c], f⟩ q =
      if GetStringValue q.Value = "" then ⟨h ++ [c], f⟩
      else ⟨h ++ [cellStep c q], appendEntry h.length f s⟩ := by
  by_cases hv : GetStringValue q.Value = ""
  · simp [qualStep, hv]
  · simp only [qualStep, hv, if_false]
    have hcell : heapUpdate
        (if q.Operator = "<>" then
          heapUpdate (h ++ [c]) h.length (fun x => { x with Comparison := some "NOT_EQUALS" })
        else if q.Operator = "=" then
          heapUpdate (h ++ [c]) h.length (fun x => { x with Comparison := some "EQUALS" })
        else h ++ [c]) h.length (fun x => { x with Value := some (GetStringValue q.Value) }) =
        h ++ [cellStep c q] := by
      unfold cellStep
      by_cases h1 : q.Operator = "<>"
      · simp [h1, heapUpdate_last]
      · by_cases h2 : q.Operator = "="
        · simp [h1, h2, heapUpdate_last]
        · simp [h1, h2, heapUpdate_last]
    rw [hcell]
    simp only [strColumns, List.mem_cons, List.mem_singleton, List.not_mem_nil, or_false] at hs
    rcases hs with rfl | rfl | rfl | rfl | rfl | rfl | rfl | rfl | rfl <;>
      simp [appendEntry]

theorem foldl_qualStep (h : Heap) (s : String) (hs : s ∈ strColumns) :
    ∀ (qs : List Qual) (c : StringFilter) (f : AwsSecurityFindingFilters Ptr),
      qs.foldl (qualStep h.length s) ⟨h ++ [c], f⟩ =
        ⟨h ++ [(effective qs).foldl cellStep c],
          (effective qs).foldl (fun g _ => appendEntry h.length g s) f⟩
  | [], c, f => rfl
  | q :: qs, c, f => by
    rw [List.foldl_cons, qualStep_last h c f s hs q]
    by_cases hv : GetStringValue q.Value = ""
    · rw [if_pos hv, foldl_qualStep h s hs qs c f]
      simp [effective, hv]
    · rw [if_neg hv, foldl_qualStep h s hs qs _ _]
      simp [effective, hv]

theorem foldl_columnStep (h : Heap) (quals : KeyColumnQualMap) :
    ∀ (cols : List String), (∀ s ∈ cols, s ∈ strColumns) →
      ∀ (c : StringFilter) (f : AwsSecurityFindingFilters Ptr),
      cols.foldl (columnStep quals h.length) ⟨h ++ [c], f⟩ =
        ⟨h ++ [(processedIn cols quals).foldl (fun c sq => cellStep c sq.2) c],
          (processedIn cols quals).foldl (fun g sq => appendEntry h.length g sq.1) f⟩
  | [], _, c, f => rfl
  | s :: cols, hcols, c, f => by
    have hs : s ∈ strColumns := hcols s (List.mem_cons_self _ _)
    have hrest : ∀ t ∈ cols, t ∈ strColumns := fun t ht => hcols t (List.mem_cons_of_mem _ ht)
    rw [List.foldl_cons]
    unfold columnStep
    cases hq : quals s with
    | none =>
      have := foldl_columnStep h quals cols hrest c f
      unfold columnStep at this
      simp only [this]
      simp [processedIn, hq]
    | some k =>
      simp only [foldl_qualStep h s hs]
      have := foldl_columnStep h quals cols hrest
      unfold columnStep at this
      simp only [this]
      simp [processedIn, hq, List.foldl_append, List.foldl_map]

/-- The run of `buildListFindingsParam` in closed form: one new object, holding what the
last round wrote, and one pointer to it per translated predicate. -/
theorem buildListFindingsParam_eq (h : Heap) (quals : KeyColumnQualMap) :
    buildListFindingsParam h quals =
      ⟨h ++ [finalCell quals],
        (processed quals).foldl (fun g sq => appendEntry h.length g sq.1)
          (AwsSecurityFindingFilters.zero Ptr)⟩ := by
  unfold buildListFindingsParam heapNew
  exact foldl_columnStep h quals strColumns (fun _ hs => hs) _ _

theorem derefFilters_appendEntry (H : Heap) (p : Ptr) (f : AwsSecurityFindingFilters Ptr)
    (s : String) :
    derefFilters H (appendEntry p f s) =
      appendEntry (H.getD p ⟨none, none⟩) (derefFilters H f) s := by
  unfold appendEntry
  repeat' split
  all_goals simp [derefFilters, derefList]

theorem derefFilters_foldl (H : Heap) (p : Ptr) :
    ∀ (l : List (String × Qual)) (f : AwsSecurityFindingFilters Ptr),
      derefFilters H (l.foldl (fun g sq => appendEntry p g sq.1) f) =
        l.foldl (fun g sq => appendEntry (H.getD p ⟨none, none⟩) g sq.1) (derefFilters H f)
  | [], _ => rfl
  | sq :: l, f => by
    rw [List.foldl_cons, List.foldl_cons, derefFilters_foldl H p l, derefFilters_appendEntry]

/-- The request handed over, in closed form: one copy of the final content of the shared
object per translated predicate.  It does not depend on the heap the run started from. -/
theorem request_eq (h : Heap) (quals : KeyColumnQualMap) :
    (buildListFindingsParam h quals).request =
      (processed quals).foldl (fun g sq => appendEntry (finalCell quals) g sq.1)
        (AwsSecurityFindingFilters.zero StringFilter) := by
  rw [buildListFindingsParam_eq]
  unfold BuildState.request
  simp only
  rw [derefFilters_foldl]
  have : (h ++ [finalCell quals]).getD h.length ⟨none, none⟩ = finalCell quals := by
    simp [List.getD_eq_getElem?_getD]
  rw [this]
  rfl

theorem effective_effective (qs : List Qual) : effective (effective qs) = effective qs := by
  simp [effective, List.filter_filter]

theorem processedIn_withoutEmpty (cols : List String) (quals : KeyColumnQualMap) :
    processedIn cols (withoutEmpty quals) = processedIn cols quals := by
  unfold processedIn
  apply List.flatMap_congr
  intro s _
  unfold withoutEmpty
  cases quals s with
  | none => rfl
  | some k => simp [effective_effective]

theorem processedIn_column (cols : List String) (quals : KeyColumnQualMap) :
    ∀ sq ∈ processedIn cols quals, sq.1 ∈ cols := by
  intro sq hsq
  unfold processedIn at hsq
  obtain ⟨s, hs, hmem⟩ := List.mem_flatMap.mp hsq
  cases hq : quals s with
  | none => simp [hq] at hmem
  | some k =>
    simp only [hq, List.mem_map] at hmem
    obtain ⟨q, _, rfl⟩ := hmem
    exact hs

theorem processedIn_snd (quals : KeyColumnQualMap) (cols : List String)
    (hne : ∀ s ∈ cols, ∀ k, quals s = some k → ∀ q ∈ k.Quals, GetStringValue q.Value ≠ "") :
    (processedIn cols quals).map Prod.snd =
      cols.flatMap (fun s =>
        match quals s with
        | none => []
        | some k => k.Quals) := by
  unfold processedIn
  rw [List.map_flatMap]
  apply List.flatMap_congr
  intro s hs
  cases hq : quals s with
  | none => rfl
  | some k =>
    have : effective k.Quals = k.Quals := by
      unfold effective
      rw [List.filter_eq_self]
      intro q hqm
      simpa using hne s hs k hq q hqm
    simp [this, List.map_map, Function.comp_def]

theorem mem_entries_appendEntry {F : Type} (x : F) (f : AwsSecurityFindingFilters F)
    (s : String) (e : F) (he : e ∈ (appendEntry x f s).entries) : e = x ∨ e ∈ f.entries := by
  unfold appendEntry at he
  repeat' split at he
  all_goals
    simp only [AwsSecurityFindingFilters.entries, List.mem_append, List.mem_singleton,
      or_assoc] at he ⊢
    first
      | (rcases he with h | h | h | h | h | h | h | h | h | h | h <;> simp [h])
      | (rcases he with h | h | h | h | h | h | h | h | h | h <;> simp [h])

theorem length_entries_appendEntry {F : Type} (x : F) (f : AwsSecurityFindingFilters F)
    (s : String) (hs : s ∈ strColumns) :
    (appendEntry x f s).entries.length = f.entries.length + 1 := by
  simp only [strColumns, List.mem_cons, List.mem_singleton, List.not_mem_nil, or_false] at hs
  rcases hs with rfl | rfl | rfl | rfl | rfl | rfl | rfl | rfl | rfl <;>
    simp [appendEntry, AwsSecurityFindingFilters.entries] <;> omega

theorem entries_foldl {F : Type} (x : F) :
    ∀ (l : List (String × Qual)) (f : AwsSecurityFindingFilters F),
      (∀ sq ∈ l, sq.1 ∈ strColumns) → (∀ e ∈ f.entries, e = x) →
      (∀ e ∈ (l.foldl (fun g sq => appendEntry x g sq.1) f).entries, e = x) ∧
      (l.foldl (fun g sq => appendEntry x g sq.1) f).entries.length =
        f.entries.length + l.length
  | [], f, _, hf => ⟨hf, rfl⟩
  | sq :: l, f, hl, hf => by
    rw [List.foldl_cons]
    have hstep : ∀ e ∈ (appendEntry x f sq.1).entries, e = x := by
      intro e he
      rcases mem_entries_appendEntry x f sq.1 e he with h1 | h1
      · exact h1
      · exact hf e h1
    have ih := entries_foldl x l (appendEntry x f sq.1)
      (fun t ht => hl t (List.mem_cons_of_mem _ ht)) hstep
    refine ⟨ih.1, ?_⟩
    rw [ih.2, length_entries_appendEntry x f sq.1 (hl sq (List.mem_cons_self _ _))]
    simp only [List.length_cons]
    omega

theorem derefList_append (H : Heap) (c : StringFilter) (ps : List Ptr)
    (hps : ∀ e ∈ ps, e < H.length) : derefList (H ++ [c]) ps = derefList H ps := by
  unfold derefList
  apply List.map_congr_left
  intro e he
  simp [List.getD_eq_getElem?_getD, List.getElem?_append_left (hps e he)]

theorem derefFilters_append (H : Heap) (c : StringFilter) (f : AwsSecurityFindingFilters Ptr)
    (hf : ∀ e ∈ f.entries, e < H.length) : derefFilters (H ++ [c]) f = derefFilters H f := by
  unfold derefFilters
  congr 1 <;> apply derefList_append <;> intro e he <;> apply hf <;>
    simp [AwsSecurityFindingFilters.entries, he]

/-! ## Facts about the pagination loop -/

theorem findingsLoop_all {α : Type} : ∀ (page : List α) (st : RowStream α),
    st.status.rowsStreamed + page.length < st.status.rowsRequired →
    findingsLoop st page =
      (⟨⟨st.status.rowsRequired, st.status.rowsStreamed + page.length⟩, st.rows ++ page⟩, none)
  | [], st, _ => by
    cases st with
    | mk status rows =>
      cases status
      simp [findingsLoop]
  | finding :: rest, st, hlt => by
    simp only [List.length_cons] at hlt
    have hne : RowsRemaining (StreamListItem st finding).status ≠ 0 := by
      simp only [RowsRemaining, StreamListItem]
      omega
    rw [findingsLoop]
    simp only [hne, if_false]
    rw [findingsLoop_all rest (StreamListItem st finding) (by simp only [StreamListItem]; omega)]
    simp only [StreamListItem, List.length_cons, List.append_assoc, List.singleton_append]
    have : st.status.rowsStreamed + 1 + rest.length = st.status.rowsStreamed + (rest.length + 1) := by
      omega
    rw [this]

theorem findingsLoop_stop {α : Type} : ∀ (page : List α) (st : RowStream α) (Q : Nat),
    1 ≤ Q → Q ≤ page.length → st.status.rowsRequired = st.status.rowsStreamed + Q →
    findingsLoop st page =
      (⟨⟨st.status.rowsRequired, st.status.rowsStreamed + Q⟩, st.rows ++ page.take Q⟩,
        some false)
  | [], _, Q, h1, h2, _ => by simp at h2; omega
  | finding :: rest, st, Q, h1, h2, hQ => by
    simp only [List.length_cons] at h2
    rw [findingsLoop]
    by_cases hq1 : Q = 1
    · subst hq1
      have h0 : RowsRemaining (StreamListItem st finding).status = 0 := by
        simp only [RowsRemaining, StreamListItem]
        omega
      simp only [h0, if_true]
      simp [StreamListItem]
    · have hne : RowsRemaining (StreamListItem st finding).status ≠ 0 := by
        simp only [RowsRemaining, StreamListItem]
        omega
      simp only [hne, if_false]
      rw [findingsLoop_stop rest (StreamListItem st finding) (Q - 1) (by omega) (by omega)
        (by simp only [StreamListItem]; omega)]
      obtain ⟨Q', rfl⟩ : ∃ Q', Q = Q' + 1 := ⟨Q - 1, by omega⟩
      simp only [StreamListItem, List.take_succ_cons, List.append_assoc, List.singleton_append,
        Nat.add_sub_cancel]
      have : st.status.rowsStreamed + 1 + Q' = st.status.rowsStreamed + (Q' + 1) := by omega
      rw [this]

theorem GetFindingsPages_ok {σ α : Type} (fn : σ → List α → Bool → σ × Bool) (st : σ) (n : Nat)
    (page : List α) (rest : List (Except GoError (List α))) :
    GetFindingsPages fn st n (Except.ok page :: rest) =
      if (fn st page rest.isEmpty).2 then GetFindingsPages fn (fn st page rest.isEmpty).1 (n + 1) rest
      else ⟨(fn st page rest.isEmpty).1, n + 1, none⟩ := rfl

theorem pages_until_error {α : Type} (e : GoError) (rest : List (Except GoError (List α))) :
    ∀ (pre : List (List α)) (st : RowStream α) (n : Nat),
    st.status.rowsStreamed + pre.flatten.length < st.status.rowsRequired →
    GetFindingsPages pageCallback st n (pre.map Except.ok ++ Except.error e :: rest) =
      ⟨⟨⟨st.status.rowsRequired, st.status.rowsStreamed + pre.flatten.length⟩,
          st.rows ++ pre.flatten⟩, n + pre.length + 1, some e⟩
  | [], st, n, _ => by
    cases st with
    | mk status rows =>
      cases status
      simp [GetFindingsPages]
  | page :: pre, st, n, hlt => by
    simp only [List.flatten_cons, List.length_append] at hlt
    rw [List.map_cons, List.cons_append, GetFindingsPages_ok, pageCallback,
      findingsLoop_all page st (by omega)]
    have hlast : (pre.map Except.ok ++ Except.error e :: rest).isEmpty = false := by
      cases pre <;> rfl
    simp only [hlast, Bool.not_false, if_true]
    rw [pages_until_error e rest pre _ (n + 1) (by simp only; omega)]
    simp only [List.flatten_cons, List.length_append, List.length_cons, List.append_assoc,
      PagerResult.mk.injEq, RowStream.mk.injEq, QueryStatus.mk.injEq, true_and, and_true]
    omega

theorem pages_until_quota {α : Type} : ∀ (pages : List (List α)) (st : RowStream α) (n Q : Nat),
    1 ≤ Q → st.status.rowsRequired = st.status.rowsStreamed + Q → Q ≤ pages.flatten.length →
    ∃ k, 1 ≤ k ∧ k ≤ pages.length ∧ (pages.take (k - 1)).flatten.length < Q ∧
      Q ≤ (pages.take k).flatten.length ∧
      GetFindingsPages pageCallback st n (pages.map Except.ok) =
        ⟨⟨⟨st.status.rowsRequired, st.status.rowsStreamed + Q⟩,
            st.rows ++ pages.flatten.take Q⟩, n + k, none⟩
  | [], _, _, Q, h1, _, h3 => by simp at h3; omega
  | page :: pages, st, n, Q, h1, hQ, h3 => by
    simp only [List.flatten_cons, List.length_append] at h3
    by_cases hp : Q ≤ page.length
    · refine ⟨1, le_refl _, by simp, by simpa using h1, by simpa using hp, ?_⟩
      rw [List.map_cons, GetFindingsPages_ok, pageCallback, findingsLoop_stop page st Q h1 hp hQ]
      simp [List.take_append_of_le_length hp]
    · have hlt : page.length < Q := by omega
      have hrest : pages ≠ [] := by
        rintro rfl
        simp at h3
        omega
      obtain ⟨k, hk1, hk2, hk3, hk4, hrun⟩ := pages_until_quota pages
        ⟨⟨st.status.rowsRequired, st.status.rowsStreamed + page.length⟩, st.rows ++ page⟩
        (n + 1) (Q - page.length) (by omega) (by simp only; omega) (by omega)
      refine ⟨k + 1, by omega, by simp only [List.length_cons]; omega, ?_, ?_, ?_⟩
      · obtain ⟨k', rfl⟩ : ∃ k', k = k' + 1 := ⟨k - 1, by omega⟩
        simp only [Nat.add_sub_cancel, List.take_succ_cons, List.flatten_cons,
          List.length_append] at hk3 ⊢
        omega
      · simp only [List.take_succ_cons, List.flatten_cons, List.length_append]
        omega
      · rw [List.map_cons, GetFindingsPages_ok, pageCallback,
          findingsLoop_all page st (by omega)]
        have hlast : (pages.map Except.ok : List (Except GoError (List α))).isEmpty = false := by
          cases pages with
          | nil => exact absurd rfl hrest
          | cons _ _ => rfl
        simp only [hlast, Bool.not_false, if_true]
        rw [hrun]
        simp only [List.flatten_cons, List.take_append_eq_append_take,
          List.take_of_length_le (Nat.le_of_lt hlt), List.append_assoc,
          PagerResult.mk.injEq, RowStream.mk.injEq, QueryStatus.mk.injEq, true_and, and_true]
        omega

/-! ## Filter translation -/

/-- C1 (the code at a query with two predicates): for `company_name = 'a' and
title <> 'b'` the request of `buildListFindingsParam` has one entry on CompanyName and one on
Title, and both read (NOT_EQUALS, "b"), the last predicate; the CompanyName entry does not
carry (EQUALS, "a"), the comparison and value of its own predicate. -/
theorem buildListFindingsParam_entries_overwritten :
    (buildListFindingsParam [] qualsCompanyTitle).request.CompanyName =
      [⟨some "NOT_EQUALS", some "b"⟩] ∧
    (buildListFindingsParam [] qualsCompanyTitle).request.Title =
      [⟨some "NOT_EQUALS", some "b"⟩] ∧
    (buildListFindingsParam [] qualsCompanyTitle).request.CompanyName ≠
      [⟨some "EQUALS", some "a"⟩] := by decide

/-- C8: for every Query Filter Set, predicates whose string value is empty add nothing:
`buildListFindingsParam` returns the same result for the set and for the set with all such
predicates removed.  Translating the same set a second time, on the heap the first
translation left, yields an equal request and leaves the first request as it was. -/
theorem buildListFindingsParam_skips_empty (h : Heap) (quals : KeyColumnQualMap) :
    buildListFindingsParam h (withoutEmpty quals) = buildListFindingsParam h quals ∧
    (buildListFindingsParam (buildListFindingsParam h quals).heap quals).request =
      (buildListFindingsParam h quals).request ∧
    derefFilters (buildListFindingsParam (buildListFindingsParam h quals).heap quals).heap
        (buildListFindingsParam h quals).filter =
      (buildListFindingsParam h quals).request := by
  refine ⟨?_, ?_, ?_⟩
  · rw [buildListFindingsParam_eq, buildListFindingsParam_eq]
    unfold finalCell processed
    rw [processedIn_withoutEmpty]
  · rw [request_eq, request_eq]
  · have hzero : ∀ e ∈ (AwsSecurityFindingFilters.zero Ptr).entries, e = h.length := by
      simp [AwsSecurityFindingFilters.zero, AwsSecurityFindingFilters.entries]
    have hmem := (entries_foldl h.length (processed quals) (AwsSecurityFindingFilters.zero Ptr)
      (processedIn_column strColumns quals) hzero).1
    unfold BuildState.request
    rw [buildListFindingsParam_eq h quals]
    simp only
    rw [buildListFindingsParam_eq (h ++ [finalCell quals])]
    simp only
    apply derefFilters_append
    intro e he
    rw [hmem e he]
    simp

/-- A predicate on a column outside `strColumns`, or with an empty string value, leaves
no trace in the result of `buildListFindingsParam`, whatever its operator. -/
theorem buildListFindingsParam_without_qual (h : Heap) (quals : KeyColumnQualMap)
    (s name : String) (pre post : List Qual) (q : Qual) (hq : quals s = some ⟨name, pre ++ q :: post⟩)
    (hdrop : s ∉ strColumns ∨ GetStringValue q.Value = "") :
    buildListFindingsParam h (withColumn quals s ⟨name, pre ++ post⟩) =
      buildListFindingsParam h quals := by
  have hp : processed (withColumn quals s ⟨name, pre ++ post⟩) = processed quals := by
    unfold processed processedIn
    apply List.flatMap_congr
    intro t ht
    by_cases hts : t = s
    · subst hts
      rcases hdrop with hd | hd
      · exact absurd ht hd
      · simp [withColumn, hq, effective, List.filter_append, List.filter_cons, hd]
    · simp [withColumn, hts]
  rw [buildListFindingsParam_eq, buildListFindingsParam_eq]
  unfold finalCell
  rw [hp]

/-- C9: unsupported operator/column combinations are silently dropped.  For every Query
Filter Set that respects the declared key columns, a predicate whose operator is neither
"=" nor "<>" (such as ">=" or "<="), on any column and with any value, adds no entry:
`buildListFindingsParam` returns the same result as for the set without that predicate. -/
theorem buildListFindingsParam_drops_unsupported (h : Heap) (quals : KeyColumnQualMap)
    (hdecl : RespectsKeyColumns quals)
    (s name : String) (pre post : List Qual) (q : Qual)
    (hq : quals s = some ⟨name, pre ++ q :: post⟩)
    (hne : q.Operator ≠ "=") (hneq : q.Operator ≠ "<>") :
    buildListFindingsParam h (withColumn quals s ⟨name, pre ++ post⟩) =
      buildListFindingsParam h quals := by
  obtain ⟨kc, hkc, hname, hop⟩ := hdecl s ⟨name, pre ++ q :: post⟩ hq q (by simp)
  have hs : s ∉ strColumns := by
    subst hname
    simp only [listKeyColumns, List.mem_cons, List.mem_singleton, List.not_mem_nil,
      or_false] at hkc
    rcases hkc with rfl | rfl | rfl | rfl | rfl | rfl | rfl | rfl | rfl | rfl | rfl
    all_goals first
      | decide
      | (exfalso
         simp only [List.mem_cons, List.mem_singleton, List.not_mem_nil, or_false] at hop
         rcases hop with hop | hop
         · exact hne hop
         · exact hneq hop)
  exact buildListFindingsParam_without_qual h quals s name pre post q hq (Or.inl hs)

/-- Witness of C9: the predicate `confidence >= 50` of
`where confidence >= 50 and title = 't'` is dropped. -/
theorem buildListFindingsParam_drops_unsupported_witness :
    (RespectsKeyColumns qualsConfidenceTitle ∧
      qualsConfidenceTitle "confidence" =
        some ⟨"confidence", [] ++ ⟨"confidence", ">=", some (QualValue.Int64Value 50)⟩ :: []⟩ ∧
      (⟨"confidence", ">=", some (QualValue.Int64Value 50)⟩ : Qual).Operator ≠ "=" ∧
      (⟨"confidence", ">=", some (QualValue.Int64Value 50)⟩ : Qual).Operator ≠ "<>") ∧
    buildListFindingsParam []
        (withColumn qualsConfidenceTitle "confidence" ⟨"confidence", [] ++ []⟩) =
      buildListFindingsParam [] qualsConfidenceTitle := by
  have hdecl : RespectsKeyColumns qualsConfidenceTitle := by
    intro s k hk q hqm
    unfold qualsConfidenceTitle at hk
    by_cases h1 : s = "confidence"
    · subst h1
      simp only [if_true, Option.some.injEq] at hk
      subst hk
      simp only [List.mem_singleton] at hqm
      subst hqm
      exact ⟨⟨"confidence", ["=", ">=", "<="]⟩, by decide, rfl, by decide⟩
    · by_cases h2 : s = "title"
      · subst h2
        simp only [if_neg h1, if_true, Option.some.injEq] at hk
        subst hk
        simp only [List.mem_singleton] at hqm
        subst hqm
        exact ⟨⟨"title", ["=", "<>"]⟩, by decide, rfl, by decide⟩
      · simp [h1, h2] at hk
  exact ⟨⟨hdecl, rfl, by decide, by decide⟩,
    buildListFindingsParam_drops_unsupported [] qualsConfidenceTitle hdecl "confidence"
      "confidence" [] [] ⟨"confidence", ">=", some (QualValue.Int64Value 50)⟩ rfl
      (by decide) (by decide)⟩

/-- C10: `buildListFindingsParam` allocates exactly one `StringFilter` object and appends
a pointer to it for every translated predicate.  For every Query Filter Set whose
predicates on the string columns all have operator "=" or "<>" and a non-empty value, and
whose last predicate in processing order is `q`: all entries of the returned filter
object are that one pointer, there is one entry per predicate, and every entry of the
request reads the comparison and the value of `q`. -/
theorem buildListFindingsParam_shares_one_filter (h : Heap) (quals : KeyColumnQualMap)
    (hq : ∀ s ∈ strColumns, ∀ k, quals s = some k → ∀ q ∈ k.Quals,
      (q.Operator = "=" ∨ q.Operator = "<>") ∧ GetStringValue q.Value ≠ "")
    (q : Qual) (hlast : (predicatesInOrder quals).getLast? = some q) :
    (buildListFindingsParam h quals).heap =
      h ++ [⟨some (if q.Operator = "=" then "EQUALS" else "NOT_EQUALS"),
             some (GetStringValue q.Value)⟩] ∧
    (∀ e ∈ (buildListFindingsParam h quals).filter.entries, e = h.length) ∧
    (∀ x ∈ (buildListFindingsParam h quals).request.entries,
      x = ⟨some (if q.Operator = "=" then "EQUALS" else "NOT_EQUALS"),
            some (GetStringValue q.Value)⟩) ∧
    (buildListFindingsParam h quals).filter.entries.length = (predicatesInOrder quals).length ∧
    (buildListFindingsParam h quals).request.entries.length =
      (predicatesInOrder quals).length := by
  have hsnd : (processed quals).map Prod.snd = predicatesInOrder quals :=
    processedIn_snd quals strColumns (fun s hs k hk q' hq' => (hq s hs k hk q' hq').2)
  have hlen : (processed quals).length = (predicatesInOrder quals).length := by
    rw [← hsnd, List.length_map]
  obtain ⟨ys, hys⟩ := List.getLast?_eq_some_iff.mp hlast
  have hqmem : q ∈ predicatesInOrder quals := by rw [hys]; simp
  have hop : q.Operator = "=" ∨ q.Operator = "<>" := by
    unfold predicatesInOrder at hqmem
    obtain ⟨s, hs, hmem⟩ := List.mem_flatMap.mp hqmem
    cases hk : quals s with
    | none => simp [hk] at hmem
    | some k =>
      simp only [hk] at hmem
      exact (hq s hs k hk q hmem).1
  have hcell : finalCell quals =
      ⟨some (if q.Operator = "=" then "EQUALS" else "NOT_EQUALS"),
        some (GetStringValue q.Value)⟩ := by
    have : finalCell quals = ((processed quals).map Prod.snd).foldl cellStep ⟨none, none⟩ := by
      unfold finalCell
      rw [List.foldl_map]
    rw [this, hsnd, hys, List.foldl_append]
    simp only [List.foldl_cons, List.foldl_nil, cellStep]
    rcases hop with h1 | h1
    · simp [h1]
    · simp [h1]
  have hzero : ∀ (F : Type) (x : F), ∀ e ∈ (AwsSecurityFindingFilters.zero F).entries, e = x := by
    intro F x e he
    simp [AwsSecurityFindingFilters.zero, AwsSecurityFindingFilters.entries] at he
  have hzlen : ∀ (F : Type), (AwsSecurityFindingFilters.zero F).entries.length = 0 := by
    intro F
    simp [AwsSecurityFindingFilters.zero, AwsSecurityFindingFilters.entries]
  have hptr := entries_foldl h.length (processed quals) (AwsSecurityFindingFilters.zero Ptr)
    (processedIn_column strColumns quals) (hzero Ptr h.length)
  have hval := entries_foldl (finalCell quals) (processed quals)
    (AwsSecurityFindingFilters.zero StringFilter)
    (processedIn_column strColumns quals) (hzero StringFilter (finalCell quals))
  rw [request_eq, buildListFindingsParam_eq]
  simp only
  refine ⟨by rw [hcell], hptr.1, ?_, ?_, ?_⟩
  · intro x hx
    rw [← hcell]
    exact hval.1 x hx
  · rw [hptr.2, hzlen, hlen]; simp
  · rw [hval.2, hzlen, hlen]; simp

/-- Witness of C10 at `where company_name = 'a' and title <> 'b'`: two entries, both
reading (NOT_EQUALS, "b"). -/
theorem buildListFindingsParam_shares_one_filter_witness :
    (∀ s ∈ strColumns, ∀ k, qualsCompanyTitle s = some k → ∀ q ∈ k.Quals,
      (q.Operator = "=" ∨ q.Operator = "<>") ∧ GetStringValue q.Value ≠ "") ∧
    (predicatesInOrder qualsCompanyTitle).getLast? =
      some ⟨"title", "<>", some (QualValue.StringValue "b")⟩ ∧
    (∀ x ∈ (buildListFindingsParam [] qualsCompanyTitle).request.entries,
      x = ⟨some "NOT_EQUALS", some "b"⟩) ∧
    (buildListFindingsParam [] qualsCompanyTitle).request.entries.length = 2 := by
  have hq : ∀ s ∈ strColumns, ∀ k, qualsCompanyTitle s = some k → ∀ q ∈ k.Quals,
      (q.Operator = "=" ∨ q.Operator = "<>") ∧ GetStringValue q.Value ≠ "" := by
    intro s hs k hk q hqm
    simp only [strColumns, List.mem_cons, List.mem_singleton, List.not_mem_nil, or_false] at hs
    rcases hs with rfl | rfl | rfl | rfl | rfl | rfl | rfl | rfl | rfl <;>
      simp [qualsCompanyTitle] at hk <;> subst hk <;> simp at hqm <;> subst hqm <;> decide
  have hlast : (predicatesInOrder qualsCompanyTitle).getLast? =
      some ⟨"title", "<>", some (QualValue.StringValue "b")⟩ := by decide
  have := buildListFindingsParam_shares_one_filter [] qualsCompanyTitle hq _ hlast
  exact ⟨hq, hlast, this.2.2.1, this.2.2.2.2⟩

/-! ## List -/

/-- C2: for every sequence of pages answered by the remote service and every row quota
`Q` with `1 ≤ Q ≤` total number of records, `listSecurityHubFindings` emits exactly the
first `Q` records of the concatenated pages, in order, and requests exactly `k` pages,
where page `k` is the one holding the `Q`-th record; it returns no error.  For pages of
100, 100 and 50 records and `Q = 120`: 120 records are emitted, the last one is the 20th
record of page 2, and only 2 pages are requested. -/
theorem listSecurityHubFindings_stops_at_quota {α : Type} :
    (∀ (svc : SecurityHub α) (d : QueryData) (pages : List (List α)) (Q : Nat),
      svc.pages (listInput d) = pages.map Except.ok →
      d.QueryStatus.rowsRequired = d.QueryStatus.rowsStreamed + Q →
      1 ≤ Q → Q ≤ pages.flatten.length →
      (listSecurityHubFindings (Except.ok svc) d).rows = pages.flatten.take Q ∧
      (listSecurityHubFindings (Except.ok svc) d).ret = (none, none) ∧
      ∃ k, 1 ≤ k ∧ k ≤ pages.length ∧ (pages.take (k - 1)).flatten.length < Q ∧
        Q ≤ (pages.take k).flatten.length ∧
        (listSecurityHubFindings (Except.ok svc) d).pagesRequested = k) ∧
    (∀ (svc : SecurityHub α) (d : QueryData) (p1 p2 p3 : List α),
      svc.pages (listInput d) = [Except.ok p1, Except.ok p2, Except.ok p3] →
      p1.length = 100 → p2.length = 100 → p3.length = 50 →
      d.QueryStatus.rowsRequired = d.QueryStatus.rowsStreamed + 120 →
      (listSecurityHubFindings (Except.ok svc) d).rows = p1 ++ p2.take 20 ∧
      (listSecurityHubFindings (Except.ok svc) d).rows.length = 120 ∧
      (listSecurityHubFindings (Except.ok svc) d).rows.getLast? = p2[19]? ∧
      (listSecurityHubFindings (Except.ok svc) d).pagesRequested = 2) := by
  have gen : ∀ (svc : SecurityHub α) (d : QueryData) (pages : List (List α)) (Q : Nat),
      svc.pages (listInput d) = pages.map Except.ok →
      d.QueryStatus.rowsRequired = d.QueryStatus.rowsStreamed + Q →
      1 ≤ Q → Q ≤ pages.flatten.length →
      (listSecurityHubFindings (Except.ok svc) d).rows = pages.flatten.take Q ∧
      (listSecurityHubFindings (Except.ok svc) d).ret = (none, none) ∧
      ∃ k, 1 ≤ k ∧ k ≤ pages.length ∧ (pages.take (k - 1)).flatten.length < Q ∧
        Q ≤ (pages.take k).flatten.length ∧
        (listSecurityHubFindings (Except.ok svc) d).pagesRequested = k := by
    intro svc d pages Q hpages hQ h1 h2
    obtain ⟨k, hk1, hk2, hk3, hk4, hrun⟩ :=
      pages_until_quota pages ⟨d.QueryStatus, []⟩ 0 Q h1 hQ h2
    refine ⟨?_, ?_, k, hk1, hk2, hk3, hk4, ?_⟩ <;>
      simp [listSecurityHubFindings, hpages, hrun]
  refine ⟨gen, ?_⟩
  intro svc d p1 p2 p3 hpages h1 h2 h3 hQ
  obtain ⟨hrows, -, k, hk1, hk2, hk3, hk4, hk⟩ :=
    gen svc d [p1, p2, p3] 120 hpages hQ (by omega) (by simp; omega)
  have hrows2 : (listSecurityHubFindings (Except.ok svc) d).rows = p1 ++ p2.take 20 := by
    rw [hrows]
    simp [List.take_append_eq_append_take, h1, h2, List.take_of_length_le]
  have hk2 : k = 2 := by
    simp only [List.length_cons, List.length_nil] at hk2
    have hk' : k = 1 ∨ k = 2 ∨ k = 3 := by omega
    rcases hk' with rfl | rfl | rfl
    · simp at hk4; omega
    · rfl
    · simp at hk3; omega
  refine ⟨hrows2, ?_, ?_, by rw [hk, hk2]⟩
  · rw [hrows2]; simp; omega
  · rw [hrows2, List.getLast?_eq_getElem?]
    have hlen : (p1 ++ List.take 20 p2).length - 1 = 119 := by simp; omega
    rw [hlen, List.getElem?_append_right (by omega), h1]
    simp [List.getElem?_take]

/-- Witness of C2 at the pages of 100, 100 and 50 numbered records with a quota of 120. -/
theorem listSecurityHubFindings_stops_at_quota_witness :
    ((1 ≤ 120 ∧ 120 ≤ samplePages.flatten.length) ∧
      (listSecurityHubFindings (Except.ok (sampleService (Except.ok []) (samplePages.map Except.ok)))
        (sampleQuery none none 120)).rows = samplePages.flatten.take 120) ∧
    (listSecurityHubFindings (Except.ok (sampleService (Except.ok []) (samplePages.map Except.ok)))
        (sampleQuery none none 120)).pagesRequested = 2 := by
  have hlen : 120 ≤ samplePages.flatten.length := by simp [samplePages]
  exact ⟨⟨⟨by omega, hlen⟩,
      (listSecurityHubFindings_stops_at_quota.1 (sampleService (Except.ok []) (samplePages.map Except.ok))
        (sampleQuery none none 120) samplePages 120 rfl rfl (by omega) hlen).1⟩,
    (listSecurityHubFindings_stops_at_quota.2 (sampleService (Except.ok []) (samplePages.map Except.ok))
        (sampleQuery none none 120) (List.range 100) ((List.range 100).map (· + 100))
        ((List.range 50).map (· + 200)) rfl (by simp) (by simp) (by simp) rfl).2.2.2⟩

/-- C3: the page size `MaxResults` of the request that `listSecurityHubFindings` passes to
the service is 100 if the Row Limit `L` is at least 100, `L` if `1 ≤ L < 100`, and 1 if
`L < 1`, for every integer `L`; it is 100 without a Row Limit; it always lies in 1..100. -/
theorem listSecurityHubFindings_page_size {α : Type} (svc : SecurityHub α) (keys : String → Option QualValue)
    (quals : KeyColumnQualMap) (status : QueryStatus) :
    (∀ L : Int,
      Option.bind (listSecurityHubFindings (Except.ok svc) ⟨keys, quals, ⟨some L⟩, status⟩).input
          GetFindingsInput.MaxResults =
        some (if 100 ≤ L then 100 else if 1 ≤ L then L else 1)) ∧
    Option.bind (listSecurityHubFindings (Except.ok svc) ⟨keys, quals, ⟨none⟩, status⟩).input
        GetFindingsInput.MaxResults = some 100 ∧
    (∀ limit : Option Int, ∃ m : Int,
      Option.bind (listSecurityHubFindings (Except.ok svc) ⟨keys, quals, ⟨limit⟩, status⟩).input
          GetFindingsInput.MaxResults = some m ∧ 1 ≤ m ∧ m ≤ 100) := by
  have hinput : ∀ d : QueryData,
      (listSecurityHubFindings (Except.ok svc) d).input = some (listInput d) := by
    intro d
    unfold listSecurityHubFindings
    simp only
    split
    · split <;> rfl
    · rfl
  have hsome : ∀ L : Int,
      (listInput ⟨keys, quals, ⟨some L⟩, status⟩).MaxResults =
        some (if 100 ≤ L then 100 else if 1 ≤ L then L else 1) := by
    intro L
    unfold listInput
    simp only
    by_cases h1 : L < 100
    · by_cases h2 : L < 1
      · rw [if_pos h1, if_pos h2, if_neg (by omega), if_neg (by omega)]
      · rw [if_pos h1, if_neg h2, if_neg (by omega), if_pos (by omega)]
    · rw [if_neg h1, if_pos (by omega)]
  have hnone : (listInput ⟨keys, quals, ⟨none⟩, status⟩).MaxResults = some 100 := rfl
  refine ⟨fun L => by rw [hinput, Option.some_bind, hsome], by rw [hinput, Option.some_bind, hnone], ?_⟩
  intro limit
  cases limit with
  | none => exact ⟨100, by rw [hinput, Option.some_bind, hnone], by omega, by omega⟩
  | some L =>
    refine ⟨_, by rw [hinput, Option.some_bind, hsome], ?_, ?_⟩ <;> split_ifs <;> omega

/-- C4: when the remote fetch fails with the error `e` (the `GetFindings` call of Get; a
page fetch of List that is reached before the row quota is used up): if the message of
`e` contains "not subscribed", `getSecurityHubFinding` and `listSecurityHubFindings`
return an empty result and no error; otherwise both return `e`, with no result. -/
theorem not_subscribed_is_empty_result {α : Type} (svc : SecurityHub α) (d : QueryData) (e : GoError) :
    (GetStringValue (d.KeyColumnQuals "id") ≠ "" →
      svc.GetFindings
        ⟨some ⟨[], [], [], [⟨some "EQUALS", some (GetStringValue (d.KeyColumnQuals "id"))⟩],
          [], [], [], [], [], []⟩, none⟩ = Except.error e →
      ("not subscribed".data <:+: e.msg.data →
        (getSecurityHubFinding (Except.ok svc) d).ret = (none, none)) ∧
      (¬ "not subscribed".data <:+: e.msg.data →
        (getSecurityHubFinding (Except.ok svc) d).ret = (none, some e))) ∧
    (∀ (pre : List (List α)) (rest : List (Except GoError (List α))),
      svc.pages (listInput d) = pre.map Except.ok ++ Except.error e :: rest →
      d.QueryStatus.rowsStreamed + pre.flatten.length < d.QueryStatus.rowsRequired →
      ("not subscribed".data <:+: e.msg.data →
        (listSecurityHubFindings (Except.ok svc) d).ret = (none, none)) ∧
      (¬ "not subscribed".data <:+: e.msg.data →
        (listSecurityHubFindings (Except.ok svc) d).ret = (none, some e))) := by
  refine ⟨fun hne hresp => ⟨fun hin => ?_, fun hin => ?_⟩,
    fun pre rest hpages hquota => ⟨fun hin => ?_, fun hin => ?_⟩⟩
  · unfold getSecurityHubFinding
    simp only [hne, if_false, AwsSecurityFindingFilters.zero, hresp,
      (Contains_iff _ _).mpr hin, if_true]
  · have hc : Contains e.msg "not subscribed" = false := by
      cases hb : Contains e.msg "not subscribed" with
      | false => rfl
      | true => exact absurd ((Contains_iff _ _).mp hb) hin
    unfold getSecurityHubFinding
    simp only [hne, if_false, AwsSecurityFindingFilters.zero, hresp, hc, Bool.false_eq_true]
  · have hrun := pages_until_error e rest pre ⟨d.QueryStatus, []⟩ 0 hquota
    unfold listSecurityHubFindings
    simp only [hpages, hrun, (Contains_iff _ _).mpr hin, if_true]
  · have hc : Contains e.msg "not subscribed" = false := by
      cases hb : Contains e.msg "not subscribed" with
      | false => rfl
      | true => exact absurd ((Contains_iff _ _).mp hb) hin
    have hrun := pages_until_error e rest pre ⟨d.QueryStatus, []⟩ 0 hquota
    unfold listSecurityHubFindings
    simp only [hpages, hrun, hc, Bool.false_eq_true, if_false]

/-- Witness of C4 at an error of a region without Security Hub and at an access error. -/
theorem not_subscribed_is_empty_result_witness :
    ("not subscribed".data <:+: notSubscribedError.msg.data ∧
      (getSecurityHubFinding
        (Except.ok (sampleService (Except.error notSubscribedError)
          [Except.ok [1, 2], Except.error notSubscribedError]))
        (sampleQuery (some (QualValue.StringValue "f-1")) none 5)).ret = (none, none) ∧
      (listSecurityHubFindings
        (Except.ok (sampleService (Except.error notSubscribedError)
          [Except.ok [1, 2], Except.error notSubscribedError]))
        (sampleQuery (some (QualValue.StringValue "f-1")) none 5)).ret = (none, none)) ∧
    (¬ "not subscribed".data <:+: accessDeniedError.msg.data ∧
      (getSecurityHubFinding
        (Except.ok (sampleService (Except.error accessDeniedError)
          [Except.ok [1, 2], Except.error accessDeniedError]))
        (sampleQuery (some (QualValue.StringValue "f-1")) none 5)).ret =
          (none, some accessDeniedError) ∧
      (listSecurityHubFindings
        (Except.ok (sampleService (Except.error accessDeniedError)
          [Except.ok [1, 2], Except.error accessDeniedError]))
        (sampleQuery (some (QualValue.StringValue "f-1")) none 5)).ret =
          (none, some accessDeniedError)) := by
  have hin : "not subscribed".data <:+: notSubscribedError.msg.data :=
    (Contains_iff _ _).mp (by decide)
  have hout : ¬ "not subscribed".data <:+: accessDeniedError.msg.data :=
    fun h => absurd ((Contains_iff _ _).mpr h) (by decide)
  have h1 := not_subscribed_is_empty_result
    (sampleService (Except.error notSubscribedError)
      [Except.ok [1, 2], Except.error notSubscribedError])
    (sampleQuery (some (QualValue.StringValue "f-1")) none 5) notSubscribedError
  have h2 := not_subscribed_is_empty_result
    (sampleService (Except.error accessDeniedError)
      [Except.ok [1, 2], Except.error accessDeniedError])
    (sampleQuery (some (QualValue.StringValue "f-1")) none 5) accessDeniedError
  exact ⟨⟨hin, (h1.1 (by decide) rfl).1 hin, (h1.2 [[1, 2]] [] rfl (by decide)).1 hin⟩,
    ⟨hout, (h2.1 (by decide) rfl).2 hout, (h2.2 [[1, 2]] [] rfl (by decide)).2 hout⟩⟩

/-! ## Get -/

/-- C6: for every non-empty identifier `id` and every successful response of the remote
service, `getSecurityHubFinding` makes exactly one `GetFindings` call, whose filter has
the single entry (EQUALS, `id`) on the Id field and nothing else, and returns the first
record of the response, or an empty result with no error when the response has none. -/
theorem getSecurityHubFinding_by_id {α : Type} (svc : SecurityHub α) (d : QueryData) (id : String)
    (hid : GetStringValue (d.KeyColumnQuals "id") = id) (hne : id ≠ "")
    (findings : List α)
    (hresp : svc.GetFindings
      ⟨some ⟨[], [], [], [⟨some "EQUALS", some id⟩], [], [], [], [], [], []⟩, none⟩ =
        Except.ok findings) :
    (getSecurityHubFinding (Except.ok svc) d).calls =
      [⟨some ⟨[], [], [], [⟨some "EQUALS", some id⟩], [], [], [], [], [], []⟩, none⟩] ∧
    (getSecurityHubFinding (Except.ok svc) d).sessions = 1 ∧
    (getSecurityHubFinding (Except.ok svc) d).ret = (findings.head?, none) := by
  subst hid
  unfold getSecurityHubFinding
  simp only [hne, if_false, AwsSecurityFindingFilters.zero, hresp]
  cases findings with
  | nil => simp
  | cons f rest => simp

/-- Witness of C6 at the identifier "f-1" and a response of two records. -/
theorem getSecurityHubFinding_by_id_witness :
    (GetStringValue ((sampleQuery (some (QualValue.StringValue "f-1")) none 5).KeyColumnQuals "id")
        = "f-1" ∧ "f-1" ≠ "") ∧
    (getSecurityHubFinding (Except.ok (sampleService (Except.ok [7, 8]) []))
      (sampleQuery (some (QualValue.StringValue "f-1")) none 5)).calls =
      [⟨some ⟨[], [], [], [⟨some "EQUALS", some "f-1"⟩], [], [], [], [], [], []⟩, none⟩] ∧
    (getSecurityHubFinding (Except.ok (sampleService (Except.ok [7, 8]) []))
      (sampleQuery (some (QualValue.StringValue "f-1")) none 5)).sessions = 1 ∧
    (getSecurityHubFinding (Except.ok (sampleService (Except.ok [7, 8]) []))
      (sampleQuery (some (QualValue.StringValue "f-1")) none 5)).ret = (some 7, none) :=
  ⟨⟨rfl, by decide⟩,
    getSecurityHubFinding_by_id (sampleService (Except.ok [7, 8]) [])
      (sampleQuery (some (QualValue.StringValue "f-1")) none 5) "f-1" rfl (by decide) [7, 8] rfl⟩

/-- C7: when the identifier is the empty string, `getSecurityHubFinding` returns an empty
result with no error, creates no service client and makes no remote call, whatever the
service (or the creation of its client) would have answered. -/
theorem getSecurityHubFinding_empty_id {α : Type} (svc : Except GoError (SecurityHub α)) (d : QueryData)
    (hid : GetStringValue (d.KeyColumnQuals "id") = "") :
    (getSecurityHubFinding svc d).ret = (none, none) ∧
    (getSecurityHubFinding svc d).sessions = 0 ∧
    (getSecurityHubFinding svc d).calls = [] := by
  unfold getSecurityHubFinding
  simp [hid]

/-- Witness of C7 at an empty identifier and a service that would answer with a record. -/
theorem getSecurityHubFinding_empty_id_witness :
    GetStringValue ((sampleQuery (some (QualValue.StringValue "")) none 5).KeyColumnQuals "id") = "" ∧
    (getSecurityHubFinding (Except.ok (sampleService (Except.ok [7]) []))
      (sampleQuery (some (QualValue.StringValue "")) none 5)).ret = (none, none) ∧
    (getSecurityHubFinding (Except.ok (sampleService (Except.ok [7]) []))
      (sampleQuery (some (QualValue.StringValue "")) none 5)).sessions = 0 ∧
    (getSecurityHubFinding (Except.ok (sampleService (Except.ok [7]) []))
      (sampleQuery (some (QualValue.StringValue "")) none 5)).calls = [] :=
  ⟨rfl, getSecurityHubFinding_empty_id _ _ rfl⟩

end SecurityHubFinding
